import Mathlib

/-!
Verification of the quinnet-testing repository's movement-synchronization core.

The repository contains two variants of the same networked-movement demo:

* a server-authoritative variant (`crates/server`, `crates/client`,
  `crates/shared`): clients send `ClientMovementIntent(Vec2)` messages, the
  server stores the last received intent in a `MovementInput` component and
  integrates it into a `Transform` each fixed tick (`apply_movement`);

* a client-authoritative variant (`src/main.rs` at the repository root):
  clients send `PositionUpdate` messages and the server copies the reported
  position into the replicated `Player` component
  (`server_handle_position_updates`), while `client_update_visual_positions`
  maintains client-side `VisualPlayer` sprites.

Scalars that are `f32` in the source are modelled as rationals `ℚ`; the
arithmetic in the claims under scrutiny (sums and products of small dyadic
constants such as `100`, `1/64`) is exact in `f32`, so the rational model
agrees with the machine arithmetic on the values of interest.  Entities of
the ECS world are modelled by natural-number identifiers carrying explicit
component fields.
-/

/-- Planar vector (bevy `Vec2`), components modelled as `ℚ`. -/
@[ext]
structure Vec2 where
  x : ℚ
  y : ℚ
deriving DecidableEq, Repr

/-- Spatial vector (bevy `Vec3`), components modelled as `ℚ`. -/
@[ext]
structure Vec3 where
  x : ℚ
  y : ℚ
  z : ℚ
deriving DecidableEq, Repr

/-- The origin, `Vec2::ZERO`. -/
def Vec2.zero : Vec2 := ⟨0, 0⟩

/-- Componentwise addition of `Vec3` (bevy `+=` on `translation`). -/
def Vec3.add (a b : Vec3) : Vec3 := ⟨a.x + b.x, a.y + b.y, a.z + b.z⟩

instance : Add Vec3 := ⟨Vec3.add⟩

/-- Right multiplication of a `Vec3` by a scalar, as in the source's
`vec * time.delta_secs() * 100.0`. -/
def Vec3.scale (v : Vec3) (q : ℚ) : Vec3 := ⟨v.x * q, v.y * q, v.z * q⟩

/-- Conversion `Vec3::from((v, 0.0))`: extend a `Vec2` by a zero z-component. -/
def Vec2.toVec3 (v : Vec2) : Vec3 := ⟨v.x, v.y, 0⟩

@[simp] lemma Vec3.add_x (a b : Vec3) : (a + b).x = a.x + b.x := rfl
@[simp] lemma Vec3.add_y (a b : Vec3) : (a + b).y = a.y + b.y := rfl
@[simp] lemma Vec3.add_z (a b : Vec3) : (a + b).z = a.z + b.z := rfl
@[simp] lemma Vec3.scale_x (v : Vec3) (q : ℚ) : (v.scale q).x = v.x * q := rfl
@[simp] lemma Vec3.scale_y (v : Vec3) (q : ℚ) : (v.scale q).y = v.y * q := rfl
@[simp] lemma Vec3.scale_z (v : Vec3) (q : ℚ) : (v.scale q).z = v.z * q := rfl
@[simp] lemma Vec2.toVec3_x (v : Vec2) : v.toVec3.x = v.x := rfl
@[simp] lemma Vec2.toVec3_y (v : Vec2) : v.toVec3.y = v.y := rfl
@[simp] lemma Vec2.toVec3_z (v : Vec2) : v.toVec3.z = 0 := rfl

/-!
## Server-authoritative variant (`crates/server/src/main.rs`)

A server-side entity created by `read_connected` carries the `Player`
component (whose `network_id` field is taken from the transport's
`NetworkId`; the `shared::Player` struct itself is reconstructed from its
uses in `crates/server` and `crates/client`), a `Transform` (its
`translation`), and a `MovementInput(Vec2)` accumulator.
-/

/-- A server-side entity holding `Player`, `Transform` and `MovementInput`,
as assembled by `read_connected`. -/
structure ServerEntity where
  eid : ℕ
  networkId : ℕ
  movementInput : Vec2
  translation : Vec3
deriving DecidableEq, Repr

/-- The mutable server world of the server-authoritative variant: the
entities matched by the queries of `apply_movement` and
`on_client_position`. -/
structure ServerState where
  players : List ServerEntity
deriving DecidableEq, Repr

/-- System `on_client_position` (crates/server): on a `FromClient<ClientMovementIntent>`
message, if the sender resolves to an entity (`message.client_id.entity()`)
and that entity has a `MovementInput` component, overwrite the stored intent
with the message's vector; otherwise do nothing.  The system contains no
logging statements, so its log output is always empty. -/
def on_client_position (sender : Option ℕ) (intent : Vec2) (s : ServerState) :
    ServerState × List String :=
  match sender with
  | none => (s, [])
  | some e =>
    ({ players := s.players.map (fun p =>
        if p.eid = e then { p with movementInput := intent } else p) }, [])

/-- System `apply_movement` (crates/server): each tick, for every entity with a
`MovementInput` and a `Transform`,
`transform.translation += Vec3::from((input.0, 0.0)) * time.delta_secs() * 100.0`. -/
def apply_movement (t : ℚ) (s : ServerState) : ServerState :=
  { players := s.players.map (fun p =>
      { p with translation := p.translation + (p.movementInput.toVec3.scale t).scale 100 }) }

/-- C1: each tick the server-authoritative simulator advances every player's
authoritative position by `position + d * s * t` with `d` the stored intent
direction, `s = 100` the shared speed constant and `t` the tick delta;
identity, stored intent and z-coordinate are unchanged.  In particular for
`d = (1,0)`, `t = 1/64` the position change of one tick is
`(25/16, 0) = (1.5625, 0)`. -/
theorem apply_movement_position_law :
    (∀ (t : ℚ) (s : ServerState),
      (apply_movement t s).players.map
          (fun q => (q.eid, q.networkId, q.movementInput,
            q.translation.x, q.translation.y, q.translation.z))
        = s.players.map
          (fun p => (p.eid, p.networkId, p.movementInput,
            p.translation.x + p.movementInput.x * 100 * t,
            p.translation.y + p.movementInput.y * 100 * t,
            p.translation.z)))
    ∧ (apply_movement (1/64)
        { players := [⟨0, 7, ⟨1, 0⟩, ⟨0, 0, 0⟩⟩] }).players
      = [⟨0, 7, ⟨1, 0⟩, ⟨25/16, 0, 0⟩⟩] := by
  constructor
  · intro t s
    simp only [apply_movement, List.map_map]
    apply List.map_congr_left
    intro p _
    simp only [Function.comp_apply, Vec3.add_x, Vec3.add_y, Vec3.add_z,
      Vec3.scale_x, Vec3.scale_y, Vec3.scale_z,
      Vec2.toVec3_x, Vec2.toVec3_y, Vec2.toVec3_z, Prod.mk.injEq,
      true_and, and_true]
    exact ⟨by ring, by ring, by ring⟩
  · simp only [apply_movement, List.map_cons, List.map_nil, List.cons.injEq,
      and_true, ServerEntity.mk.injEq, true_and]
    apply Vec3.ext <;> norm_num [Vec2.toVec3, Vec3.scale]

/-- The per-player update performed by one `apply_movement` tick. -/
def movementStep (t : ℚ) (p : ServerEntity) : ServerEntity :=
  { p with translation := p.translation + (p.movementInput.toVec3.scale t).scale 100 }

lemma apply_movement_eq_map (t : ℚ) (s : ServerState) :
    apply_movement t s = ⟨s.players.map (movementStep t)⟩ := rfl

lemma iterate_apply_movement (t : ℚ) (k : ℕ) (s : ServerState) :
    (apply_movement t)^[k] s = ⟨s.players.map ((movementStep t)^[k])⟩ := by
  induction k generalizing s with
  | zero => simp
  | succ k ih =>
    rw [Function.iterate_succ_apply, ih, apply_movement_eq_map]
    simp [List.map_map, Function.iterate_succ, Function.comp]

lemma movementStep_iterate (t : ℚ) (k : ℕ) (p : ServerEntity) :
    (movementStep t)^[k] p =
      { p with translation :=
          ⟨p.translation.x + k * (p.movementInput.x * 100 * t),
           p.translation.y + k * (p.movementInput.y * 100 * t),
           p.translation.z⟩ } := by
  induction k with
  | zero => simp
  | succ k ih =>
    rw [Function.iterate_succ_apply', ih]
    cases p with
    | mk eid networkId movementInput translation =>
      simp only [movementStep]
      apply congrArg
      apply Vec3.ext <;> simp [Vec2.toVec3, Vec3.scale] <;> ring

/-- C10: the stored movement intent is never cleared by the simulator: after
`k` ticks with no further messages the intent is unchanged and the position
has advanced by the same per-tick delta `d * 100 * t` on every one of the
`k` ticks (a zero intent, such as the one the client sends from its
input-ended observer, must arrive via `on_client_position` to stop the
motion). -/
theorem movement_intent_persists :
    ∀ (t : ℚ) (s : ServerState) (k : ℕ),
      ((apply_movement t)^[k] s).players.map
          (fun q => (q.eid, q.networkId, q.movementInput,
            q.translation.x, q.translation.y))
        = s.players.map
          (fun p => (p.eid, p.networkId, p.movementInput,
            p.translation.x + k * (p.movementInput.x * 100 * t),
            p.translation.y + k * (p.movementInput.y * 100 * t))) := by
  intro t s k
  rw [iterate_apply_movement]
  simp only [List.map_map]
  apply List.map_congr_left
  intro p _
  rw [Function.comp_apply, movementStep_iterate]

/-- Sequential processing, between two ticks, of a batch of intent messages
from the client resolving to entity `e`: the replication layer drains the
inbox by triggering `on_client_position` once per message, in arrival
order. -/
def processIntents (e : ℕ) (msgs : List Vec2) (s : ServerState) : ServerState :=
  msgs.foldl (fun st m => (on_client_position (some e) m st).1) s

/-- The stored `MovementInput` of the entity `e`, when that entity exists. -/
def lookupInput (e : ℕ) (s : ServerState) : Option Vec2 :=
  (s.players.find? (fun p => p.eid == e)).map (fun p => p.movementInput)

lemma find_map_update (e : ℕ) (m : Vec2) (l : List ServerEntity) :
    (l.map (fun p => if p.eid = e then { p with movementInput := m } else p)).find?
        (fun p => p.eid == e)
      = (l.find? (fun p => p.eid == e)).map
          (fun p => if p.eid = e then { p with movementInput := m } else p) := by
  induction l with
  | nil => rfl
  | cons p l ih =>
    by_cases h : p.eid = e
    · simp [List.find?_cons, h]
    · simp [List.find?_cons, h, ih]

lemma lookupInput_ocp (e : ℕ) (m : Vec2) (s : ServerState)
    (h : (lookupInput e s).isSome) :
    lookupInput e (on_client_position (some e) m s).1 = some m := by
  obtain ⟨p, hp⟩ : ∃ p, s.players.find? (fun q => q.eid == e) = some p := by
    cases hfind : s.players.find? (fun q => q.eid == e) with
    | none =>
      unfold lookupInput at h
      rw [hfind] at h
      simp at h
    | some p => exact ⟨p, rfl⟩
  have hpe : p.eid = e := by simpa using List.find?_some hp
  unfold lookupInput
  simp only [on_client_position, find_map_update, hp]
  simp [hpe]

lemma lookupInput_isSome_ocp (e : ℕ) (m : Vec2) (s : ServerState)
    (h : (lookupInput e s).isSome) :
    (lookupInput e (on_client_position (some e) m s).1).isSome := by
  rw [lookupInput_ocp e m s h]
  rfl

lemma processIntents_isSome (e : ℕ) (msgs : List Vec2) (s : ServerState)
    (h : (lookupInput e s).isSome) :
    (lookupInput e (processIntents e msgs s)).isSome := by
  induction msgs generalizing s with
  | nil => exact h
  | cons m ms ih => exact ih _ (lookupInput_isSome_ocp e m s h)

/-- C3: last-write-wins for intents.  For any sequence of movement-intent
messages from one player processed between two consecutive ticks, the stored
`MovementInput` afterwards is exactly the last message of the sequence: each
receipt of `on_client_position` overwrites the stored vector, never queues
or accumulates. -/
theorem last_intent_wins (s : ServerState) (e : ℕ) (msgs : List Vec2)
    (h1 : (lookupInput e s).isSome) (h2 : msgs ≠ []) :
    lookupInput e (processIntents e msgs s) = some (msgs.getLast h2) := by
  induction msgs using List.reverseRecOn with
  | nil => exact absurd rfl h2
  | append_singleton l m ih =>
    unfold processIntents
    rw [List.foldl_append]
    simp only [List.foldl_cons, List.foldl_nil, List.getLast_append]
    exact lookupInput_ocp e m _ (processIntents_isSome e l s h1)

/-- Witness for C3 at a concrete input: two intents arrive in one inter-tick
window; the stored intent afterwards is the second one. -/
theorem last_intent_wins_witness :
    lookupInput 0 (processIntents 0 [⟨1, 0⟩, ⟨0, 1⟩]
        ⟨[⟨0, 7, Vec2.zero, ⟨0, 0, 0⟩⟩]⟩) = some ⟨0, 1⟩ := by
  have h := last_intent_wins ⟨[⟨0, 7, Vec2.zero, ⟨0, 0, 0⟩⟩]⟩ 0
    [⟨1, 0⟩, ⟨0, 1⟩] (by decide) (by decide)
  simpa using h

/-- C6: an intent whose sender resolves to no entity carrying a
`MovementInput` (for example, the player already disconnected), or to no
entity at all, leaves the server state unchanged and produces no log
output. -/
theorem unknown_sender_intent_noop :
    (∀ (v : Vec2) (s : ServerState), on_client_position none v s = (s, []))
    ∧ (∀ (e : ℕ) (v : Vec2) (s : ServerState),
        (∀ p ∈ s.players, p.eid ≠ e) →
        on_client_position (some e) v s = (s, [])) := by
  constructor
  · intro v s; rfl
  · intro e v s h
    have hmap : s.players.map
        (fun p => if p.eid = e then { p with movementInput := v } else p)
        = s.players := by
      conv_rhs => rw [← List.map_id s.players]
      apply List.map_congr_left
      intro p hp
      simp [h p hp]
    simp only [on_client_position, hmap]

/-- Witness for C6 at a concrete input: an intent from entity `5` while only
entity `0` exists changes nothing. -/
theorem unknown_sender_intent_noop_witness :
    on_client_position (some 5) ⟨1, 0⟩ ⟨[⟨0, 7, Vec2.zero, ⟨0, 0, 0⟩⟩]⟩
      = (⟨[⟨0, 7, Vec2.zero, ⟨0, 0, 0⟩⟩]⟩, []) :=
  unknown_sender_intent_noop.2 5 ⟨1, 0⟩ ⟨[⟨0, 7, Vec2.zero, ⟨0, 0, 0⟩⟩]⟩
    (by decide)

/-!
## Client-authoritative variant (root `src/main.rs`)

The server world is a list of ECS entities; the components relevant to the
claims are `ConnectedClient` and `NetworkId` (both attached by the
replication backend to the entity representing a connection) and the
replicated `Player { id, position }` component spawned by `new_client`.
-/

/-- Severity of a log line. -/
inductive LogLevel where
  | info
  | warn
deriving DecidableEq, Repr

/-- The log lines emitted by the modelled systems of the root `src/main.rs`. -/
inductive LogMsg where
  | newClientAuthorized (id : ℕ)
  | clientNoNetworkId
  | clientDisconnected (entity : ℕ) (id : Option ℕ)
  | updatedPosition (id : ℕ) (pos : Vec2)
deriving DecidableEq, Repr

/-- Severity of each log line: `new_client` uses `warn!` exactly when no
`NetworkId` is found, all other modelled lines are `info!`. -/
def LogMsg.level : LogMsg → LogLevel
  | .clientNoNetworkId => .warn
  | _ => .info

/-- The `Player` component of the root `src/main.rs`: `id` and `position`. -/
structure PlayerComp where
  id : ℕ
  position : Vec2
deriving DecidableEq, Repr

/-- An entity of the client-authoritative server world, with the components
the modelled systems query. -/
structure CAEntity where
  eid : ℕ
  connectedClient : Bool
  networkId : Option ℕ
  player : Option PlayerComp
deriving DecidableEq, Repr

/-- The client-authoritative server world. -/
structure CAWorld where
  entities : List CAEntity
deriving DecidableEq, Repr

/-- Lookup `query.get(entity)` for a `Query<&NetworkId>`: the `NetworkId` of the
given entity, if that entity exists and carries one. -/
def resolveNetworkId (w : CAWorld) (e : ℕ) : Option ℕ :=
  (w.entities.find? (fun en => en.eid == e)).bind (fun en => en.networkId)

/-- Observer `new_client` (root `src/main.rs`): observer for `Add<AuthorizedClient>`.
If the triggering connection entity has a `NetworkId`, spawn a fresh entity
carrying `Player { id: network_id, position: Vec2::ZERO }`; otherwise warn
and spawn nothing. -/
def new_client (triggerEntity fresh : ℕ) (w : CAWorld) : CAWorld × List LogMsg :=
  match resolveNetworkId w triggerEntity with
  | some n =>
    ({ entities := w.entities ++ [⟨fresh, false, none, some ⟨n, Vec2.zero⟩⟩] },
     [.newClientAuthorized n])
  | none => (w, [.clientNoNetworkId])

/-- System `handle_client_disconnections` (root `src/main.rs`): iterates the
entities whose `ConnectedClient` component was removed and emits one `info!`
line per entity; the system issues no commands, so the world is returned
unchanged. -/
def handle_client_disconnections (removed : List ℕ) (w : CAWorld) :
    CAWorld × List LogMsg :=
  (w, removed.map (fun e => LogMsg.clientDisconnected e (resolveNetworkId w e)))

/-- The `Player` components currently replicated to every client
(`app.replicate::<Player>()` broadcasts every entity carrying `Player`). -/
def replicatedPlayers (w : CAWorld) : List PlayerComp :=
  w.entities.filterMap (fun en => en.player)

/-- Observer `server_handle_position_updates` (root `src/main.rs`): on
`FromClient<PositionUpdate>`, if the sender is a client connection entity
(`ClientId::Client`), look that entity up in
`Query<Entity, With<ConnectedClient>>` and then fetch `&mut Player` on the
resulting entity; if both lookups succeed, copy the reported position into
that `Player` and log, otherwise do nothing. -/
def server_handle_position_updates (clientId : Option ℕ) (pos : Vec2)
    (w : CAWorld) : CAWorld × List LogMsg :=
  match clientId with
  | none => (w, [])
  | some ce =>
    match w.entities.find? (fun en => en.eid == ce && en.connectedClient) with
    | none => (w, [])
    | some parent =>
      match parent.player with
      | none => (w, [])
      | some pl =>
        ({ entities := w.entities.map (fun en =>
            if en.eid == ce then
              { en with player := some { pl with position := pos } }
            else en) },
         [.updatedPosition pl.id pos])

/-- C7: on a connection-authorized notification, if the connection entity
has a resolvable `NetworkId` then exactly one new entity is spawned,
carrying `Player` with `position = origin` and `id` equal to that
identifier; if not, the world is unchanged and a single warning is
logged. -/
theorem new_client_spawns_exactly_one_player :
    ∀ (w : CAWorld) (e fresh : ℕ),
      (∀ n, resolveNetworkId w e = some n →
        replicatedPlayers (new_client e fresh w).1
            = replicatedPlayers w ++ [⟨n, Vec2.zero⟩]
          ∧ ((new_client e fresh w).1).entities.length = w.entities.length + 1
          ∧ (new_client e fresh w).2 = [LogMsg.newClientAuthorized n])
      ∧ (resolveNetworkId w e = none →
          (new_client e fresh w).1 = w
          ∧ (new_client e fresh w).2 = [LogMsg.clientNoNetworkId]
          ∧ LogMsg.clientNoNetworkId.level = LogLevel.warn) := by
  intro w e fresh
  constructor
  · intro n hn
    refine ⟨?_, ?_, ?_⟩ <;> simp [new_client, hn, replicatedPlayers]
  · intro hn
    refine ⟨?_, ?_, rfl⟩ <;> simp [new_client, hn]

/-- Witness for C7 at concrete inputs, one for each branch: a connection
entity with `NetworkId` 7 produces exactly the player `⟨7, origin⟩`; a
connection entity without a `NetworkId` leaves the world unchanged and warns. -/
theorem new_client_spawns_exactly_one_player_witness :
    replicatedPlayers (new_client 1 2 ⟨[⟨1, true, some 7, none⟩]⟩).1
        = [⟨7, Vec2.zero⟩]
      ∧ (new_client 1 2 ⟨[⟨1, true, none, none⟩]⟩).1 = ⟨[⟨1, true, none, none⟩]⟩
      ∧ (new_client 1 2 ⟨[⟨1, true, none, none⟩]⟩).2
        = [LogMsg.clientNoNetworkId] := by
  have hA := (new_client_spawns_exactly_one_player ⟨[⟨1, true, some 7, none⟩]⟩ 1 2).1
    7 (by decide)
  have hB := (new_client_spawns_exactly_one_player ⟨[⟨1, true, none, none⟩]⟩ 1 2).2
    (by decide)
  refine ⟨?_, hB.1, hB.2.1⟩
  rw [hA.1]
  rfl

/-- C2 counterexample: a server world in which the connection of the player
with `network_id = 7` has already closed (its connection entity is gone, so
only the spawned `Player` entity remains).  After the code's entire response
to the connection-closed notification (`handle_client_disconnections`), the
player entity still exists and the very next replication broadcast still
references player 7 — the claim that the entity ceases to exist is false. -/
theorem disconnect_player_persists_cex :
    (replicatedPlayers (handle_client_disconnections [1]
          ⟨[⟨2, false, none, some ⟨7, Vec2.zero⟩⟩]⟩).1).any (fun pl => pl.id == 7)
        = true
      ∧ (handle_client_disconnections [1]
          ⟨[⟨2, false, none, some ⟨7, Vec2.zero⟩⟩]⟩).1.entities.length = 1 := by
  exact ⟨rfl, rfl⟩

/-- C2 amended: on a connection-closed notification the server only logs
(at `info!` severity); the world — and hence the set of replicated
players — is unchanged, so the disconnected player's entity persists. -/
theorem disconnect_only_logs :
    ∀ (removed : List ℕ) (w : CAWorld),
      (handle_client_disconnections removed w).1 = w
      ∧ replicatedPlayers (handle_client_disconnections removed w).1
          = replicatedPlayers w
      ∧ (∀ m ∈ (handle_client_disconnections removed w).2,
          m.level = LogLevel.info) := by
  intro removed w
  refine ⟨rfl, rfl, ?_⟩
  intro m hm
  simp only [handle_client_disconnections, List.mem_map] at hm
  obtain ⟨e, _, rfl⟩ := hm
  rfl

/-- Witness for the amended C2: concrete disconnect notification processed,
world unchanged and the emitted log line is `info!`. -/
theorem disconnect_only_logs_witness :
    (handle_client_disconnections [1]
        ⟨[⟨2, false, none, some ⟨7, Vec2.zero⟩⟩]⟩).1
      = ⟨[⟨2, false, none, some ⟨7, Vec2.zero⟩⟩]⟩
    ∧ (LogMsg.clientDisconnected 1 none).level = LogLevel.info := by
  refine ⟨(disconnect_only_logs [1] _).1, ?_⟩
  exact (disconnect_only_logs [1] ⟨[⟨2, false, none, some ⟨7, Vec2.zero⟩⟩]⟩).2.2
    (LogMsg.clientDisconnected 1 none) (by decide)

/-- Whenever the entities carrying `ConnectedClient` carry no `Player`
component — which is the case for every world this code builds, since
`new_client` spawns `Player` on a fresh entity — `server_handle_position_updates`
is a global no-op: both of its lookups target the connection entity, the
second one fails, and nothing is written or logged. -/
lemma position_updates_noop_of_separation (clientId : Option ℕ) (pos : Vec2)
    (w : CAWorld)
    (h : ∀ en ∈ w.entities, en.connectedClient = true → en.player = none) :
    server_handle_position_updates clientId pos w = (w, []) := by
  cases clientId with
  | none => rfl
  | some ce =>
    simp only [server_handle_position_updates]
    cases hfind : w.entities.find? (fun en => en.eid == ce && en.connectedClient) with
    | none => rfl
    | some parent =>
      have hmem := List.mem_of_find?_eq_some hfind
      have hcc : parent.connectedClient = true := by
        have hp := List.find?_some hfind
        simp only [Bool.and_eq_true, beq_iff_eq] at hp
        exact hp.2
      simp [h parent hmem hcc]

/-- C4 (code bug, failing input): a connected client (connection entity 1,
`NetworkId` 7) with its `Player` spawned by `new_client` on the separate
entity 2 reports position `(5, 7)`.  The code leaves the whole world
unchanged — player 7 keeps position `(0, 0)` and not even the "Updated
position" log line is emitted — because `server_handle_position_updates`
fetches `&mut Player` on the connection entity, which never carries one. -/
theorem position_update_never_applied :
    server_handle_position_updates (some 1) ⟨5, 7⟩
        ⟨[⟨1, true, some 7, none⟩, ⟨2, false, none, some ⟨7, Vec2.zero⟩⟩]⟩
      = (⟨[⟨1, true, some 7, none⟩, ⟨2, false, none, some ⟨7, Vec2.zero⟩⟩]⟩, []) :=
  position_updates_noop_of_separation (some 1) ⟨5, 7⟩ _ (by decide)

/-!
## Client of the server-authoritative variant (`crates/client/src/main.rs`)

`handle_new_players` runs every `Update` frame.  Bevy advances the system's
`last_run` change tick on every run — including runs whose body returns
early because the `MyClientId` resource has not been inserted yet — and the
`Added<Player>` query filter matches exactly the players whose component was
added after the system's previous run.
-/

/-- A replicated `Player` entity as seen by the client, together with the
change tick at which it was added and whether it carries the `LocalPlayer`
marker. -/
structure ClPlayer where
  eid : ℕ
  networkId : ℕ
  addedTick : ℕ
  localPlayer : Bool
deriving DecidableEq, Repr

/-- The client-side state touched by `read_connected` and
`handle_new_players`: the replicated players, the `MyClientId` resource and
the system's `last_run` change tick. -/
structure ClientState where
  players : List ClPlayer
  myClientId : Option ℕ
  lastRun : ℕ
deriving DecidableEq, Repr

/-- System `handle_new_players` (crates/client), run at change tick `currentTick`.
If `MyClientId` is absent the body returns early, but the system's
`last_run` tick still advances.  Otherwise every player added since the
previous run whose `network_id` equals the known client id receives the
`LocalPlayer` marker (plus input actions); newly added remote players only
receive visuals and stay unmarked. -/
def handle_new_players (currentTick : ℕ) (s : ClientState) : ClientState :=
  match s.myClientId with
  | none => { s with lastRun := currentTick }
  | some cid =>
    { players := s.players.map (fun p =>
        if s.lastRun < p.addedTick ∧ p.networkId = cid then
          { p with localPlayer := true }
        else p),
      myClientId := some cid,
      lastRun := currentTick }

/-- The events that touch this client-side state: a `Player` entity arrives
by replication, `read_connected` learns the connection's client id, or
`handle_new_players` runs for one frame. -/
inductive ClientEvent where
  | playerAdded (eid networkId tick : ℕ)
  | clientIdLearned (cid : ℕ)
  | frame (tick : ℕ)
deriving DecidableEq, Repr

/-- One step of the client-side state machine. -/
def stepClient (s : ClientState) : ClientEvent → ClientState
  | .playerAdded e n t => { s with players := s.players ++ [⟨e, n, t, false⟩] }
  | .clientIdLearned c => { s with myClientId := some c }
  | .frame t => handle_new_players t s

/-- Run a sequence of client events. -/
def runClient (s : ClientState) (evs : List ClientEvent) : ClientState :=
  evs.foldl stepClient s

/-- The state at client process start: no replicated players, no
`MyClientId` resource. -/
def initClient : ClientState := ⟨[], none, 0⟩

/-- The invariant backing the local-player singleton: the known client id
(if any) is `cid`, and only players whose `network_id` is `cid` can be
marked. -/
def MarkedOnlyMatching (cid : ℕ) (s : ClientState) : Prop :=
  (s.myClientId = none ∨ s.myClientId = some cid)
  ∧ ∀ p ∈ s.players, p.localPlayer = true → p.networkId = cid

lemma stepClient_marked_only_matching (cid : ℕ) (s : ClientState)
    (ev : ClientEvent) (hev : ∀ c, ev = ClientEvent.clientIdLearned c → c = cid)
    (h : MarkedOnlyMatching cid s) : MarkedOnlyMatching cid (stepClient s ev) := by
  obtain ⟨hid, hmark⟩ := h
  cases ev with
  | playerAdded e n t =>
    refine ⟨hid, ?_⟩
    intro p hp hlp
    rcases List.mem_append.mp hp with hp | hp
    · exact hmark p hp hlp
    · simp only [List.mem_singleton] at hp
      subst hp
      simp at hlp
  | clientIdLearned c =>
    have : c = cid := hev c rfl
    subst this
    exact ⟨Or.inr rfl, hmark⟩
  | frame t =>
    unfold stepClient handle_new_players
    cases hcid : s.myClientId with
    | none => exact ⟨Or.inl rfl, hmark⟩
    | some c =>
      have hc : c = cid := by
        rcases hid with hid | hid
        · rw [hcid] at hid; cases hid
        · rw [hcid] at hid; injection hid
      subst hc
      refine ⟨Or.inr rfl, ?_⟩
      intro p hp hlp
      simp only [List.mem_map] at hp
      obtain ⟨q, hq, hqp⟩ := hp
      by_cases hcond : s.lastRun < q.addedTick ∧ q.networkId = c
      · rw [if_pos hcond] at hqp
        subst hqp
        exact hcond.2
      · rw [if_neg hcond] at hqp
        subst hqp
        exact hmark q hq hlp

lemma runClient_marked_only_matching (cid : ℕ) (evs : List ClientEvent)
    (s : ClientState)
    (hev : ∀ c, ClientEvent.clientIdLearned c ∈ evs → c = cid)
    (h : MarkedOnlyMatching cid s) :
    MarkedOnlyMatching cid (runClient s evs) := by
  induction evs generalizing s with
  | nil => exact h
  | cons ev evs ih =>
    refine ih _ (fun c hc => hev c (List.mem_cons_of_mem _ hc)) ?_
    refine stepClient_marked_only_matching cid s ev ?_ h
    intro c hc
    exact hev c (hc ▸ List.mem_cons_self _ _)

/-- How many players with `network_id = cid` exist. -/
def matchCount (cid : ℕ) (s : ClientState) : ℕ :=
  s.players.countP (fun p => p.networkId == cid)

/-- Does this event add a player with `network_id = cid`? -/
def addsMatching (cid : ℕ) : ClientEvent → Bool
  | .playerAdded _ n _ => n == cid
  | _ => false

lemma matchCount_step (cid : ℕ) (s : ClientState) (ev : ClientEvent) :
    matchCount cid (stepClient s ev)
      = matchCount cid s + (if addsMatching cid ev then 1 else 0) := by
  cases ev with
  | playerAdded e n t =>
    simp [stepClient, matchCount, addsMatching, List.countP_append, List.countP_cons]
  | clientIdLearned c => simp [stepClient, matchCount, addsMatching]
  | frame t =>
    simp only [stepClient, matchCount, addsMatching, if_false, Bool.false_eq_true,
      if_neg, add_zero]
    unfold handle_new_players
    cases s.myClientId with
    | none => rfl
    | some c =>
      simp only [List.countP_map]
      apply List.countP_congr
      intro p _
      by_cases hcond : s.lastRun < p.addedTick ∧ p.networkId = c <;>
        simp [hcond, Function.comp]

lemma matchCount_runClient (cid : ℕ) (evs : List ClientEvent) (s : ClientState) :
    matchCount cid (runClient s evs)
      = matchCount cid s + evs.countP (addsMatching cid) := by
  induction evs generalizing s with
  | nil => simp [runClient]
  | cons ev evs ih =>
    show matchCount cid (runClient (stepClient s ev) evs) = _
    rw [ih, matchCount_step, List.countP_cons]
    by_cases h : addsMatching cid ev
    · simp only [h, if_true]
      ring
    · simp [h]

lemma stepClient_marker_monotone (s : ClientState) (ev : ClientEvent)
    (p : ClPlayer) (hp : p ∈ s.players) (hlp : p.localPlayer = true) :
    ∃ q ∈ (stepClient s ev).players,
      q.eid = p.eid ∧ q.localPlayer = true ∧ q.networkId = p.networkId := by
  cases ev with
  | playerAdded e n t =>
    exact ⟨p, List.mem_append_left _ hp, rfl, hlp, rfl⟩
  | clientIdLearned c => exact ⟨p, hp, rfl, hlp, rfl⟩
  | frame t =>
    unfold stepClient handle_new_players
    cases s.myClientId with
    | none => exact ⟨p, hp, rfl, hlp, rfl⟩
    | some c =>
      by_cases hcond : s.lastRun < p.addedTick ∧ p.networkId = c
      · refine ⟨{ p with localPlayer := true }, ?_, rfl, rfl, rfl⟩
        simp only [List.mem_map]
        exact ⟨p, hp, by rw [if_pos hcond]⟩
      · refine ⟨p, ?_, rfl, hlp, rfl⟩
        simp only [List.mem_map]
        exact ⟨p, hp, by rw [if_neg hcond]⟩

lemma runClient_marker_monotone (evs : List ClientEvent) (s : ClientState)
    (p : ClPlayer) (hp : p ∈ s.players) (hlp : p.localPlayer = true) :
    ∃ q ∈ (runClient s evs).players,
      q.eid = p.eid ∧ q.localPlayer = true ∧ q.networkId = p.networkId := by
  induction evs generalizing s p with
  | nil => exact ⟨p, hp, rfl, hlp, rfl⟩
  | cons ev evs ih =>
    obtain ⟨q, hq, hqe, hqlp, hqn⟩ := stepClient_marker_monotone s ev p hp hlp
    obtain ⟨r, hr, hre, hrlp, hrn⟩ := ih (stepClient s ev) q hq hqlp
    exact ⟨r, hr, hre.trans hqe, hrlp, hrn.trans hqn⟩

/-- C5: local-player singleton.  For any execution of the client process in
which `read_connected` only ever reports one connection id `cid` (the client
opens a single connection) and at most one replicated player carries
`network_id = cid` (the server-side identity-uniqueness invariant), at most
one entity ever carries the `LocalPlayer` marker, every marked entity is the
one whose `network_id` equals the client's own id, and a marker once
assigned is never removed or reassigned by any later event. -/
theorem local_player_singleton :
    ∀ (cid : ℕ) (evs : List ClientEvent),
      (∀ c, ClientEvent.clientIdLearned c ∈ evs → c = cid) →
      evs.countP (addsMatching cid) ≤ 1 →
      ((runClient initClient evs).players.countP (fun p => p.localPlayer) ≤ 1)
      ∧ (∀ p ∈ (runClient initClient evs).players,
          p.localPlayer = true → p.networkId = cid)
      ∧ (∀ (more : List ClientEvent) (p : ClPlayer),
          p ∈ (runClient initClient evs).players → p.localPlayer = true →
          ∃ q ∈ (runClient (runClient initClient evs) more).players,
            q.eid = p.eid ∧ q.localPlayer = true ∧ q.networkId = p.networkId) := by
  intro cid evs hev hcount
  have hmatching := runClient_marked_only_matching cid evs initClient hev
    ⟨Or.inl rfl, by intro p hp; simp [initClient] at hp⟩
  refine ⟨?_, hmatching.2, ?_⟩
  · calc (runClient initClient evs).players.countP (fun p => p.localPlayer)
        ≤ (runClient initClient evs).players.countP (fun p => p.networkId == cid) := by
          apply List.countP_mono_left
          intro p hp hlp
          simpa using hmatching.2 p hp hlp
      _ = matchCount cid (runClient initClient evs) := rfl
      _ = matchCount cid initClient + evs.countP (addsMatching cid) :=
          matchCount_runClient cid evs initClient
      _ ≤ 1 := by simpa [matchCount, initClient] using hcount
  · intro more p hp hlp
    exact runClient_marker_monotone more (runClient initClient evs) p hp hlp

/-- Witness for C5: the client learns id 5, the matching player replicates,
one frame runs; afterwards exactly one marker exists. -/
theorem local_player_singleton_witness :
    ((runClient initClient
        [ClientEvent.clientIdLearned 5, ClientEvent.playerAdded 1 5 1,
         ClientEvent.frame 1]).players.countP (fun p => p.localPlayer) ≤ 1) := by
  exact (local_player_singleton 5
    [ClientEvent.clientIdLearned 5, ClientEvent.playerAdded 1 5 1,
     ClientEvent.frame 1] (by intro c hc; simpa using hc) (by decide)).1

lemma handle_new_players_lastRun (t : ℕ) (s : ClientState) :
    (handle_new_players t s).lastRun = t := by
  unfold handle_new_players
  cases s.myClientId <;> rfl

lemma handle_new_players_keeps_stale_unmarked (t e : ℕ) (s : ClientState)
    (ht : s.lastRun ≤ t)
    (hinv : ∀ p ∈ s.players, p.eid = e →
      p.localPlayer = false ∧ p.addedTick ≤ s.lastRun) :
    ∀ p ∈ (handle_new_players t s).players, p.eid = e →
      p.localPlayer = false ∧ p.addedTick ≤ (handle_new_players t s).lastRun := by
  intro p hp hpe
  rw [handle_new_players_lastRun]
  unfold handle_new_players at hp
  cases hcid : s.myClientId with
  | none =>
    rw [hcid] at hp
    obtain ⟨h1, h2⟩ := hinv p hp hpe
    exact ⟨h1, h2.trans ht⟩
  | some c =>
    rw [hcid] at hp
    simp only [List.mem_map] at hp
    obtain ⟨q, hq, hqp⟩ := hp
    by_cases hcond : s.lastRun < q.addedTick ∧ q.networkId = c
    · rw [if_pos hcond] at hqp
      subst hqp
      obtain ⟨_, h2⟩ := hinv q hq hpe
      exact absurd hcond.1 (Nat.not_lt.mpr h2)
    · rw [if_neg hcond] at hqp
      subst hqp
      obtain ⟨h1, h2⟩ := hinv q hq hpe
      exact ⟨h1, h2.trans ht⟩

/-- The frames-only continuation of a client run: `handle_new_players`
executes once per frame at weakly increasing change ticks.  This is the only
system of the client that inserts the `LocalPlayer` marker. -/
def frameEvents (ticks : List ℕ) : List ClientEvent :=
  ticks.map ClientEvent.frame

/-- Entity `e` never receives the `LocalPlayer` marker in any frames-only
future of state `s` (ticks weakly increasing from the system's last run). -/
def entityNeverMarked (s : ClientState) (e : ℕ) : Prop :=
  ∀ ticks : List ℕ, List.Chain (fun a b => a ≤ b) s.lastRun ticks →
    ∀ p ∈ (runClient s (frameEvents ticks)).players, p.eid = e →
      p.localPlayer = false

lemma entityNeverMarked_of_stale (s : ClientState) (e : ℕ)
    (hinv : ∀ p ∈ s.players, p.eid = e →
      p.localPlayer = false ∧ p.addedTick ≤ s.lastRun) :
    entityNeverMarked s e := by
  intro ticks
  induction ticks generalizing s with
  | nil =>
    intro _ p hp hpe
    exact (hinv p hp hpe).1
  | cons t ts ih =>
    intro hchain p hp hpe
    rcases hchain with _ | ⟨hle, hchain⟩
    have hstep := handle_new_players_keeps_stale_unmarked t e s hle hinv
    have hlast : (handle_new_players t s).lastRun = t :=
      handle_new_players_lastRun t s
    refine ih (handle_new_players t s) ?_ ?_ p ?_ hpe
    · exact hstep
    · rw [hlast]; exact hchain
    · exact hp

/-- C8 counterexample: the matching player (entity 1, `network_id = 5`)
replicates at tick 1, `handle_new_players` runs once while `MyClientId` is
still absent, then the client learns its id 5, and the system runs again at
tick 2.  The player is never marked on that frame (its addition predates the
system's last run, so `Added<Player>` no longer matches it) nor on any later
frame: the claim that a matching player eventually receives the
`LocalPlayer` marker regardless of the order of id learning and replication
is false. -/
theorem matching_player_never_marked_cex :
    runClient initClient
        [ClientEvent.playerAdded 1 5 1, ClientEvent.frame 1,
         ClientEvent.clientIdLearned 5, ClientEvent.frame 2]
      = ⟨[⟨1, 5, 1, false⟩], some 5, 2⟩
    ∧ entityNeverMarked ⟨[⟨1, 5, 1, false⟩], some 5, 2⟩ 1 := by
  constructor
  · rfl
  · apply entityNeverMarked_of_stale
    intro p hp hpe
    simp only [List.mem_singleton] at hp
    subst hp
    exact ⟨rfl, by norm_num⟩

/-- C8 amended: the Unidentified-to-Identified transition happens the first
time a replicated `Player` whose `network_id` matches the locally-known
client id is added *after* the system's previous run while `MyClientId` is
already present.  (A matching player that replicated before the client
learned its own id is missed for good, as the counterexample shows.) -/
theorem marker_assigned_when_id_already_known :
    ∀ (s : ClientState) (t cid : ℕ) (p : ClPlayer),
      s.myClientId = some cid → p ∈ s.players → p.networkId = cid →
      s.lastRun < p.addedTick →
      ∃ q ∈ (handle_new_players t s).players,
        q.eid = p.eid ∧ q.localPlayer = true ∧ q.networkId = cid := by
  intro s t cid p hid hp hn hfresh
  unfold handle_new_players
  rw [hid]
  refine ⟨{ p with localPlayer := true }, ?_, rfl, rfl, hn⟩
  simp only [List.mem_map]
  exact ⟨p, hp, by rw [if_pos ⟨hfresh, hn⟩]⟩

/-- Witness for the amended C8: id 5 already known (`MyClientId` present,
last run 2), the matching player was added at tick 3; the next run marks
it. -/
theorem marker_assigned_when_id_already_known_witness :
    ∃ q ∈ (handle_new_players 3 ⟨[⟨1, 5, 3, false⟩], some 5, 2⟩).players,
      q.eid = 1 ∧ q.localPlayer = true ∧ q.networkId = 5 :=
  marker_assigned_when_id_already_known ⟨[⟨1, 5, 3, false⟩], some 5, 2⟩ 3 5
    ⟨1, 5, 3, false⟩ rfl (by decide) rfl (by decide)

/-!
## Client visuals (root `src/main.rs`, `client_update_visual_positions`)
-/

/-- A client-side visual entity: `VisualPlayer { player_id }` together with
its `Transform` translation. -/
structure VisualEnt where
  playerId : ℕ
  translation : Vec3
deriving DecidableEq, Repr

/-- The inner loop of `client_update_visual_positions` for one changed
player: walk the visuals, set the first one whose `player_id` matches and
`break`; also report whether a match was found. -/
def setFirstVisual (p : PlayerComp) : List VisualEnt → List VisualEnt × Bool
  | [] => ([], false)
  | v :: rest =>
    if v.playerId = p.id then
      ({ v with translation := p.position.toVec3 } :: rest, true)
    else
      let r := setFirstVisual p rest
      (v :: r.1, r.2)

/-- System `client_update_visual_positions` (root `src/main.rs`): for every changed
player, update the transform of the first matching `VisualPlayer` in place;
if none matches, `commands.spawn` a new visual at the player's position.
Spawns are deferred commands, applied only after the system finishes, so
they are collected separately and appended at the end. -/
def client_update_visual_positions (changed : List PlayerComp)
    (visuals : List VisualEnt) : List VisualEnt :=
  let res := changed.foldl
    (fun acc p =>
      let r := setFirstVisual p acc.1
      if r.2 then (r.1, acc.2)
      else (acc.1, acc.2 ++ [⟨p.id, p.position.toVec3⟩]))
    (visuals, [])
  res.1 ++ res.2

/-- Search-or-append form of a single-player visual update. -/
def applyOneVisual (p : PlayerComp) : List VisualEnt → List VisualEnt
  | [] => [⟨p.id, p.position.toVec3⟩]
  | v :: rest =>
    if v.playerId = p.id then
      { v with translation := p.position.toVec3 } :: rest
    else v :: applyOneVisual p rest

lemma setFirstVisual_not_found (p : PlayerComp) (vs : List VisualEnt)
    (h : (setFirstVisual p vs).2 = false) :
    (setFirstVisual p vs).1 = vs
      ∧ applyOneVisual p vs = vs ++ [⟨p.id, p.position.toVec3⟩] := by
  induction vs with
  | nil => exact ⟨rfl, rfl⟩
  | cons v rest ih =>
    by_cases hv : v.playerId = p.id
    · rw [setFirstVisual, if_pos hv] at h
      cases h
    · rw [setFirstVisual, if_neg hv] at h ⊢
      rw [applyOneVisual, if_neg hv]
      dsimp only at h ⊢
      obtain ⟨h1, h2⟩ := ih h
      exact ⟨by rw [h1], by rw [h2]; rfl⟩

lemma setFirstVisual_found (p : PlayerComp) (vs : List VisualEnt)
    (h : (setFirstVisual p vs).2 = true) :
    applyOneVisual p vs = (setFirstVisual p vs).1 := by
  induction vs with
  | nil => cases h
  | cons v rest ih =>
    by_cases hv : v.playerId = p.id
    · rw [setFirstVisual, if_pos hv]
      rw [applyOneVisual, if_pos hv]
    · rw [setFirstVisual, if_neg hv] at h ⊢
      rw [applyOneVisual, if_neg hv, ih h]

lemma cuvp_singleton (p : PlayerComp) (vs : List VisualEnt) :
    client_update_visual_positions [p] vs = applyOneVisual p vs := by
  unfold client_update_visual_positions
  simp only [List.foldl_cons, List.foldl_nil]
  by_cases h : (setFirstVisual p vs).2
  · rw [if_pos h]
    simp [setFirstVisual_found p vs h]
  · rw [if_neg (by simpa using h)]
    have := setFirstVisual_not_found p vs (by simpa using h)
    simp [this.2]

lemma applyOneVisual_idem (p : PlayerComp) (vs : List VisualEnt) :
    applyOneVisual p (applyOneVisual p vs) = applyOneVisual p vs := by
  induction vs with
  | nil =>
    rw [applyOneVisual]
    rw [applyOneVisual, if_pos rfl]
  | cons v rest ih =>
    by_cases hv : v.playerId = p.id
    · rw [applyOneVisual, if_pos hv, applyOneVisual, if_pos hv]
    · rw [applyOneVisual, if_neg hv, applyOneVisual, if_neg hv, ih]

/-- C9: idempotence of replication observation.  Redelivering the same
player position snapshot any number of consecutive times produces exactly
the visuals of a single delivery: the matching visual's transform is set to
the latest value (never accumulated), and redelivery spawns no duplicate
visual entity. -/
theorem visual_update_idempotent :
    ∀ (p : PlayerComp) (visuals : List VisualEnt) (n : ℕ),
      (fun vs => client_update_visual_positions [p] vs)^[n + 1] visuals
        = client_update_visual_positions [p] visuals := by
  intro p visuals n
  induction n with
  | zero => rfl
  | succ n ih =>
    rw [Function.iterate_succ_apply', ih]
    simp only [cuvp_singleton]
    exact applyOneVisual_idem p visuals
